import Mathlib

/-!
Verification of the battery cell management dashboard
(src/battery management system/app.py) against its specification.

Modelling choices:
* Python decimal literals and arithmetic are embedded as exact rationals (ℚ).
  Where a claim's truth hinges on binary floating-point rounding this is
  recorded in the results.
* The Streamlit session state is a `SessionState`.  Python dictionaries whose
  values are mutable dict objects are modelled with an explicit heap: the
  registry `cells_data` is an insertion-ordered association list from cell id
  to a heap reference (a natural number indexing `heap`).  This captures the
  object aliasing produced by the shallow `dict.copy()` on line 141 of the
  source.  Since generated cell ids are pairwise distinct (proved below), an
  insertion-ordered association list models the Python dict exactly.
* The random `temperature` source (`random.uniform(25, 40)`) is a parameter
  `temps : ℕ → ℚ`; Python guarantees its result lies in [25, 40].
-/

namespace BatteryApp

/-- Chemistry choices offered by the sidebar selectbox (line 74 of app.py):
the options are exactly "LFP" and "NMC". -/
inductive Chem
  | lfp
  | nmc
deriving DecidableEq, Repr, Fintype

/-- Lowercase form, as produced by `cell_type.lower()` on line 78. -/
def Chem.lower : Chem → String
  | .lfp => "lfp"
  | .nmc => "nmc"

/-- Uppercase form, as produced by `cell_type.upper()` on line 101. -/
def Chem.upper : Chem → String
  | .lfp => "LFP"
  | .nmc => "NMC"

/-- Rounding to an integer as the Python built-in round does it, on exact
rationals: round half to even. -/
def pyRound (q : ℚ) : ℤ :=
  let f := ⌊q⌋
  if q - f < 1/2 then f
  else if 1/2 < q - f then f + 1
  else if f % 2 = 0 then f else f + 1

/-- Behavior of the Python call round(q, ndigits) on exact rationals. -/
def roundTo (ndigits : ℕ) (q : ℚ) : ℚ :=
  (pyRound (q * 10 ^ ndigits) : ℚ) / 10 ^ ndigits

/-- One cell record: the inner dict built on lines 94-102 of app.py. -/
structure CellRecord where
  voltage : ℚ
  current : ℚ
  temp : ℚ
  capacity : ℚ
  min_voltage : ℚ
  max_voltage : ℚ
  type : String
deriving DecidableEq, Repr

/-- Placeholder record used when a heap reference is out of range; such a
reference never occurs in reachable states. -/
def dictMissing : CellRecord :=
  { voltage := 0, current := 0, temp := 0, capacity := 0,
    min_voltage := 0, max_voltage := 0, type := "" }

instance : Inhabited CellRecord := ⟨dictMissing⟩

/-- Cell id built by the f-string on line 85: the literal cell_, the 1-based
index, an underscore, and the lowercase chemistry. -/
def mkId (idx : ℕ) (cell_type : Chem) : String :=
  "cell_" ++ toString idx ++ "_" ++ cell_type.lower

/-- One freshly generated record, mirroring lines 87-102 of app.py:
per-chemistry voltage constants, current 0.0, temperature rounded to one
decimal, capacity `round(voltage * current, 2)`. -/
def mkCell (cell_type : Chem) (rand_temp : ℚ) : CellRecord :=
  let voltage : ℚ := if cell_type = Chem.lfp then 3.2 else 3.6
  let min_voltage : ℚ := if cell_type = Chem.lfp then 2.8 else 3.2
  let max_voltage : ℚ := if cell_type = Chem.lfp then 3.6 else 4.0
  let current : ℚ := 0.0
  let temp : ℚ := roundTo 1 rand_temp
  let capacity : ℚ := roundTo 2 (voltage * current)
  { voltage := voltage, current := current, temp := temp, capacity := capacity,
    min_voltage := min_voltage, max_voltage := max_voltage,
    type := cell_type.upper }

/-- Session state: `heap` holds the mutable cell dict objects, and
`cells_data` is the registry `st.session_state.cells_data`, an
insertion-ordered map from cell id to the heap reference of its record. -/
structure SessionState where
  heap : List CellRecord
  cells_data : List (String × ℕ)
deriving DecidableEq, Repr

/-- Session start (lines 50-51 of app.py): the registry is empty. -/
def initialState : SessionState := { heap := [], cells_data := [] }

/-- Key/record pairs built by the generation loop (lines 84-102), in
configuration order, with 1-based indices. -/
def generateCells (cell_types : List Chem) (temps : ℕ → ℚ) :
    List (String × CellRecord) :=
  cell_types.enum.map (fun p => (mkId (p.1 + 1) p.2, mkCell p.2 (temps p.1)))

/-- Effect of the Generate Cell Data button (lines 80-104): a fresh dict
object is allocated for every cell and the whole registry is replaced. -/
def generateHandler (cell_types : List Chem) (temps : ℕ → ℚ)
    (s : SessionState) : SessionState :=
  let recs := generateCells cell_types temps
  { heap := s.heap ++ recs.map Prod.snd,
    cells_data := recs.enum.map (fun p => (p.2.1, s.heap.length + p.1)) }

/-- Registry as the program observes it: each id paired with the record its
reference currently points at. -/
def registryView (s : SessionState) : List (String × CellRecord) :=
  s.cells_data.map (fun e => (e.1, s.heap.getD e.2 dictMissing))

/-- One iteration of the Tab 2 loop (lines 143-156) for the entry of one
cell: `updated_data[cell_key]` is the same dict object as
`st.session_state.cells_data[cell_key]` because line 141 made only a shallow
copy, so the assignment mutates the record on the heap in place. -/
def stagedRecord (cell_data : CellRecord) (new_current : ℚ) : CellRecord :=
  { cell_data with current := new_current,
                   capacity := roundTo 2 (cell_data.voltage * new_current) }

/-- Heap effect of that iteration: the shared record is overwritten in
place. -/
def stageEdit (inputs : String → ℚ) (heap : List CellRecord)
    (entry : String × ℕ) : List CellRecord :=
  heap.set entry.2 (stagedRecord (heap.getD entry.2 dictMissing) (inputs entry.1))

/-- Rendering Tab 2 (lines 137-156) with the operator inputs (the value
shown by each number_input).  This runs on every rerun, whether or not the
Update button is pressed, and mutates the shared records. -/
def tab2Render (inputs : String → ℚ) (s : SessionState) : SessionState :=
  { s with heap := s.cells_data.foldl (stageEdit inputs) s.heap }

/-- Pressing Update All Currents (lines 158-160) after the Tab 2 render:
`st.session_state.cells_data = updated_data` assigns the shallow copy, which
holds exactly the same id/reference pairs, so the registry mapping itself is
unchanged. -/
def updateAllCurrents (inputs : String → ℚ) (s : SessionState) : SessionState :=
  let s' := tab2Render inputs s
  { heap := s'.heap, cells_data := s'.cells_data }

/-- Status classification of Tab 1 (lines 117-123 of app.py). -/
def statusOf (cell_data : CellRecord) : String :=
  let voltage_ratio :=
    (cell_data.voltage - cell_data.min_voltage) /
      (cell_data.max_voltage - cell_data.min_voltage)
  if voltage_ratio > 0.8 then "Good"
  else if voltage_ratio > 0.5 then "OK"
  else "Low"

/-- Ratio computed on line 117, exposed for the claims about it. -/
def voltageRatio (cell_data : CellRecord) : ℚ :=
  (cell_data.voltage - cell_data.min_voltage) /
    (cell_data.max_voltage - cell_data.min_voltage)

/-- Number of card columns in Tab 1 (line 114): `min(4, len(cells_data))`. -/
def numColumns (s : SessionState) : ℕ :=
  min 4 s.cells_data.length

/-- Column labels of the Tab 4 detailed table (lines 188-200), in order. -/
def csvColumns : List String :=
  ["Cell ID", "Type", "Voltage (V)", "Min Voltage (V)", "Max Voltage (V)",
   "Current (A)", "Temperature (°C)", "Capacity (Ah)"]

/-- Header row of the CSV export: the column labels joined by commas. -/
def csvHeaderRow : String :=
  String.intercalate "," csvColumns

/-- One row of the detailed table, as the tuple of values taken from the
in-memory record (lines 189-198). -/
def detailedRow (key : String) (data : CellRecord) :
    String × String × ℚ × ℚ × ℚ × ℚ × ℚ × ℚ :=
  (key, data.type, data.voltage, data.min_voltage, data.max_voltage,
   data.current, data.temp, data.capacity)

/-- Rows of `df_detailed` (lines 188-200): one per registry entry, in
registry order. -/
def dfDetailed (s : SessionState) : List (String × String × ℚ × ℚ × ℚ × ℚ × ℚ × ℚ) :=
  (registryView s).map (fun e => detailedRow e.1 e.2)

/-- Fixed filename passed to st.download_button on line 202. -/
def downloadFilename : String := "battery_cell_data.csv"

/-- Fixed MIME type passed to st.download_button on line 202. -/
def downloadMime : String := "text/csv"

/-- States the dashboard can actually be in: the empty initial state, and
anything produced by the Generate button, a Tab 2 render, or the Update All
Currents button. -/
inductive Reachable : SessionState → Prop
  | init : Reachable initialState
  | generate (cell_types : List Chem) (temps : ℕ → ℚ) {s : SessionState} :
      Reachable s → Reachable (generateHandler cell_types temps s)
  | render (inputs : String → ℚ) {s : SessionState} :
      Reachable s → Reachable (tab2Render inputs s)
  | update (inputs : String → ℚ) {s : SessionState} :
      Reachable s → Reachable (updateAllCurrents inputs s)

/-! Helper definitions and lemmas shared by the claim theorems. -/

/-- Capacity invariant of a single record: the stored capacity is the rounded
product of the stored voltage and current. -/
def capacityInv (r : CellRecord) : Prop :=
  r.capacity = roundTo 2 (r.voltage * r.current)

/-- Every record on the heap satisfies the capacity invariant. -/
def HeapInv (s : SessionState) : Prop :=
  ∀ r ∈ s.heap, capacityInv r

lemma capacityInv_mkCell (c : Chem) (t : ℚ) : capacityInv (mkCell c t) := rfl

lemma capacityInv_stagedRecord (r : CellRecord) (v : ℚ) :
    capacityInv (stagedRecord r v) := rfl

lemma capacityInv_dictMissing : capacityInv dictMissing := by
  unfold capacityInv dictMissing
  norm_num [roundTo, pyRound]

lemma getD_mem_or_eq (l : List α) (n : ℕ) (a : α) :
    l.getD n a ∈ l ∨ l.getD n a = a := by
  rw [List.getD_eq_getElem?_getD]
  rcases h : l[n]? with _ | b
  · right; rfl
  · left
    obtain ⟨hl, hb⟩ := List.getElem?_eq_some.1 h
    simpa [hb] using List.getElem_mem hl

lemma heapInv_generateHandler (ct : List Chem) (temps : ℕ → ℚ)
    (s : SessionState) (h : HeapInv s) :
    HeapInv (generateHandler ct temps s) := by
  intro r hr
  simp only [generateHandler, List.mem_append, List.mem_map] at hr
  rcases hr with hr | ⟨p, hp, rfl⟩
  · exact h r hr
  · simp only [generateCells, List.mem_map] at hp
    obtain ⟨q, hq, rfl⟩ := hp
    exact capacityInv_mkCell _ _

lemma heapInv_foldl_stageEdit (inputs : String → ℚ) (l : List (String × ℕ))
    (h : List CellRecord) (hh : ∀ r ∈ h, capacityInv r) :
    ∀ r ∈ l.foldl (stageEdit inputs) h, capacityInv r := by
  induction l generalizing h with
  | nil => exact hh
  | cons e rest ih =>
    refine ih _ ?_
    intro r hr
    rcases List.mem_or_eq_of_mem_set hr with hr | rfl
    · exact hh r hr
    · exact capacityInv_stagedRecord _ _

lemma heapInv_tab2Render (inputs : String → ℚ) (s : SessionState)
    (h : HeapInv s) : HeapInv (tab2Render inputs s) :=
  heapInv_foldl_stageEdit inputs s.cells_data s.heap h

lemma reachable_heapInv {s : SessionState} (h : Reachable s) : HeapInv s := by
  induction h with
  | init => intro r hr; cases hr
  | generate ct temps _ ih => exact heapInv_generateHandler ct temps _ ih
  | render inputs _ ih => exact heapInv_tab2Render inputs _ ih
  | update inputs _ ih => exact heapInv_tab2Render inputs _ ih

lemma registryView_capacityInv {s : SessionState} (h : HeapInv s) :
    ∀ p ∈ registryView s, capacityInv p.2 := by
  intro p hp
  simp only [registryView, List.mem_map] at hp
  obtain ⟨e, he, rfl⟩ := hp
  rcases getD_mem_or_eq s.heap e.2 dictMissing with hm | hm
  · exact h _ hm
  · rw [hm]; exact capacityInv_dictMissing

lemma registryView_generateHandler (ct : List Chem) (temps : ℕ → ℚ)
    (s : SessionState) :
    registryView (generateHandler ct temps s) = generateCells ct temps := by
  apply List.ext_getElem
  · simp [registryView, generateHandler, List.enum_length]
  · intro n h1 h2
    have hn : n < (generateCells ct temps).length := h2
    simp only [registryView, generateHandler, List.getElem_map,
      List.getElem_enum]
    rw [List.getD_eq_getElem?_getD,
      List.getElem?_append_right (Nat.le_add_right _ _)]
    simp [List.getElem?_eq_getElem, hn]

lemma le_pyRound {a : ℤ} {q : ℚ} (h : (a : ℚ) ≤ q) : a ≤ pyRound q := by
  simp only [pyRound]
  have hf : a ≤ ⌊q⌋ := Int.le_floor.2 h
  split
  · exact hf
  · split
    · omega
    · split <;> omega

lemma pyRound_le {b : ℤ} {q : ℚ} (h : q ≤ (b : ℚ)) : pyRound q ≤ b := by
  simp only [pyRound]
  have hf : ⌊q⌋ ≤ b := by
    have := Int.floor_le_floor h
    simpa using this
  split
  · exact hf
  · rename_i h2
    push_neg at h2
    have hlt : ⌊q⌋ < b := by
      by_contra hc
      have hb : ⌊q⌋ = b := le_antisymm hf (by omega)
      have h1 : q - (⌊q⌋ : ℚ) ≤ 0 := by
        rw [hb]; linarith
      linarith
    split
    · omega
    · split <;> omega

lemma roundTo_one_mem_Icc {a b : ℤ} {q : ℚ} (h1 : (a : ℚ) ≤ q)
    (h2 : q ≤ (b : ℚ)) : (a : ℚ) ≤ roundTo 1 q ∧ roundTo 1 q ≤ (b : ℚ) := by
  unfold roundTo
  have hl : (a * 10 : ℤ) ≤ pyRound (q * 10 ^ 1) := by
    apply le_pyRound
    push_cast
    nlinarith
  have hr : pyRound (q * 10 ^ 1) ≤ (b * 10 : ℤ) := by
    apply pyRound_le
    push_cast
    nlinarith
  constructor
  · rw [le_div_iff₀ (by positivity)]
    calc (a : ℚ) * 10 ^ 1 = ((a * 10 : ℤ) : ℚ) := by push_cast; ring
      _ ≤ _ := by exact_mod_cast hl
  · rw [div_le_iff₀ (by positivity)]
    calc ((pyRound (q * 10 ^ 1) : ℤ) : ℚ) ≤ ((b * 10 : ℤ) : ℚ) := by
          exact_mod_cast hr
      _ = (b : ℚ) * 10 ^ 1 := by push_cast; ring

lemma temp_stageEdit (inputs : String → ℚ) (h : List CellRecord)
    (e : String × ℕ) (i : ℕ) :
    ((stageEdit inputs h e).getD i dictMissing).temp =
      (h.getD i dictMissing).temp := by
  unfold stageEdit
  rcases eq_or_ne e.2 i with rfl | hne
  · by_cases hlt : e.2 < h.length
    · rw [List.getD_eq_getElem?_getD, List.getElem?_set_eq_of_lt _ hlt]
      simp [stagedRecord, List.getD_eq_getElem?_getD]
    · have hnone : h[e.2]? = none := List.getElem?_eq_none (Nat.le_of_not_lt hlt)
      rw [List.getD_eq_getElem?_getD, List.getElem?_set,
        List.getD_eq_getElem?_getD]
      simp [hlt, hnone]
  · rw [List.getD_eq_getElem?_getD, List.getElem?_set_ne hne,
      List.getD_eq_getElem?_getD]

lemma temp_foldl_stageEdit (inputs : String → ℚ) (l : List (String × ℕ))
    (h : List CellRecord) (i : ℕ) :
    ((l.foldl (stageEdit inputs) h).getD i dictMissing).temp =
      (h.getD i dictMissing).temp := by
  induction l generalizing h with
  | nil => rfl
  | cons e rest ih =>
    rw [List.foldl_cons, ih, temp_stageEdit]

lemma mkId_inj :
    ∀ i < 16, ∀ j < 16, ∀ ci cj : Chem,
      mkId (i + 1) ci = mkId (j + 1) cj → i = j ∧ ci = cj := by
  decide

lemma keys_generateCells (ct : List Chem) (temps : ℕ → ℚ) :
    (generateCells ct temps).map Prod.fst =
      ct.enum.map (fun p => mkId (p.1 + 1) p.2) := by
  simp [generateCells, Function.comp]

lemma length_generateCells (ct : List Chem) (temps : ℕ → ℚ) :
    (generateCells ct temps).length = ct.length := by
  simp [generateCells, List.enum_length]

lemma keys_generateCells_nodup (ct : List Chem) (temps : ℕ → ℚ)
    (hle : ct.length ≤ 16) :
    ((generateCells ct temps).map Prod.fst).Nodup := by
  rw [keys_generateCells]
  refine List.pairwise_iff_getElem.2 ?_
  intro i j hi hj hij
  simp only [List.length_map, List.enum_length] at hi hj
  simp only [List.getElem_map, List.getElem_enum]
  intro hEq
  obtain ⟨hij', -⟩ :=
    mkId_inj i (lt_of_lt_of_le hi hle) j (lt_of_lt_of_le hj hle) _ _ hEq
  omega

lemma foldl_stageEdit_untouched (inputs : String → ℚ)
    (l : List (String × ℕ)) (h : List CellRecord) (i : ℕ)
    (hi : ∀ e ∈ l, e.2 ≠ i) :
    (l.foldl (stageEdit inputs) h).getD i dictMissing =
      h.getD i dictMissing := by
  induction l generalizing h with
  | nil => rfl
  | cons e rest ih =>
    rw [List.foldl_cons, ih _ (fun f hf => hi f (List.mem_cons_of_mem _ hf))]
    unfold stageEdit
    rw [List.getD_eq_getElem?_getD,
      List.getElem?_set_ne (hi e (List.mem_cons_self _ _)),
      List.getD_eq_getElem?_getD]

lemma foldl_stageEdit_touched (inputs : String → ℚ) (l : List (String × ℕ))
    (hnd : (l.map Prod.snd).Nodup) :
    ∀ e ∈ l, ∀ h : List CellRecord, e.2 < h.length →
      (l.foldl (stageEdit inputs) h).getD e.2 dictMissing =
        stagedRecord (h.getD e.2 dictMissing) (inputs e.1) := by
  induction l with
  | nil => intro e he; cases he
  | cons f rest ih =>
    simp only [List.map_cons, List.nodup_cons] at hnd
    intro e he h hlen
    rw [List.foldl_cons]
    rcases List.mem_cons.1 he with rfl | hrest
    · have hni : ∀ g ∈ rest, g.2 ≠ e.2 := by
        intro g hg hEq
        exact hnd.1 (hEq ▸ List.mem_map_of_mem Prod.snd hg)
      rw [foldl_stageEdit_untouched inputs rest _ _ hni]
      unfold stageEdit
      rw [List.getD_eq_getElem?_getD, List.getElem?_set_eq_of_lt _ hlen]
      simp [List.getD_eq_getElem?_getD]
    · have hne : f.2 ≠ e.2 := by
        intro hEq
        exact hnd.1 (hEq ▸ List.mem_map_of_mem Prod.snd hrest)
      have hlen' : e.2 < (stageEdit inputs h f).length := by
        unfold stageEdit
        rw [List.length_set]
        exact hlen
      rw [ih hnd.2 e hrest _ hlen']
      unfold stageEdit
      rw [List.getD_eq_getElem?_getD, List.getElem?_set_ne hne,
        List.getD_eq_getElem?_getD]

lemma updateAllCurrents_eq_tab2Render (inputs : String → ℚ)
    (s : SessionState) :
    updateAllCurrents inputs s = tab2Render inputs s := rfl

lemma cells_data_tab2Render (inputs : String → ℚ) (s : SessionState) :
    (tab2Render inputs s).cells_data = s.cells_data := rfl

lemma registryView_temp_tab2Render (inputs : String → ℚ) (s : SessionState) :
    (registryView (tab2Render inputs s)).map (fun p => (p.1, p.2.temp)) =
      (registryView s).map (fun p => (p.1, p.2.temp)) := by
  unfold registryView tab2Render
  simp only [List.map_map]
  refine List.map_congr_left ?_
  intro e _
  simp only [Function.comp_apply]
  rw [temp_foldl_stageEdit]

lemma stagedRecord_self (r : CellRecord) (h : capacityInv r) :
    stagedRecord r r.current = r := by
  unfold stagedRecord
  unfold capacityInv at h
  rw [← h]

lemma registryView_tab2Render_getD (inputs : String → ℚ) (s : SessionState) :
    registryView (tab2Render inputs s) =
      s.cells_data.map (fun e => (e.1,
        (s.cells_data.foldl (stageEdit inputs) s.heap).getD e.2 dictMissing)) :=
  rfl

lemma getD_capacityInv {s : SessionState} (h : HeapInv s) (i : ℕ) :
    capacityInv (s.heap.getD i dictMissing) := by
  rcases getD_mem_or_eq s.heap i dictMissing with hm | hm
  · exact h _ hm
  · rw [hm]
    exact capacityInv_dictMissing

/-! Concrete states used by witnesses and counterexamples. -/

/-- Registry generated from one LFP cell with sampled temperature 30. -/
def sampleState : SessionState :=
  generateHandler [Chem.lfp] (fun _ => 30) initialState

/-- Registry generated from one LFP and one NMC cell, temperatures 30. -/
def sampleState2 : SessionState :=
  generateHandler [Chem.lfp, Chem.nmc] (fun _ => 30) initialState

/-! Claim theorems. -/

/-- C1 (counterexample): a generated NMC cell is classified "Low", not "OK",
refuting the claim that the classification yields "OK" for both chemistries
and never yields "Low". -/
theorem generated_nmc_cell_status_not_ok :
    statusOf (mkCell Chem.nmc 30) = "Low" ∧
    statusOf (mkCell Chem.nmc 30) ≠ "OK" ∧
    ("cell_1_nmc", mkCell Chem.nmc 30) ∈
      registryView (generateHandler [Chem.nmc] (fun _ => 30) initialState) := by
  have hlow : statusOf (mkCell Chem.nmc 30) = "Low" := by
    norm_num +decide [statusOf, mkCell]
  refine ⟨hlow, ?_, ?_⟩
  · rw [hlow]
    decide
  · show ("cell_1_nmc", mkCell Chem.nmc 30) ∈ [("cell_1_nmc", mkCell Chem.nmc 30)]
    exact List.mem_singleton.2 rfl

/-- C1 (amended): every generated NMC cell has voltage ratio exactly 0.5,
which the strict comparison of the "OK" branch (ratio > 0.5) classifies as
"Low", not "OK"; no generated cell of either chemistry is ever classified
"Good"; and current updates change neither the ratio nor the status.  (No
status is asserted for LFP cells: their ratio is 0.5 only in exact
arithmetic, and the binary floating point of the program rounds it slightly
above 0.5.) -/
theorem generated_nmc_status_low_never_good :
    (∀ t : ℚ,
      voltageRatio (mkCell Chem.nmc t) = 1/2 ∧
      statusOf (mkCell Chem.nmc t) = "Low" ∧
      statusOf (mkCell Chem.nmc t) ≠ "OK") ∧
    (∀ (c : Chem) (t : ℚ), statusOf (mkCell c t) ≠ "Good") ∧
    (∀ (r : CellRecord) (v : ℚ),
      voltageRatio (stagedRecord r v) = voltageRatio r ∧
      statusOf (stagedRecord r v) = statusOf r) := by
  refine ⟨?_, ?_, ?_⟩
  · intro t
    have hlow : statusOf (mkCell Chem.nmc t) = "Low" := by
      norm_num +decide [statusOf, mkCell]
    refine ⟨by norm_num +decide [voltageRatio, mkCell], hlow, ?_⟩
    rw [hlow]
    decide
  · intro c t
    have hlow : statusOf (mkCell c t) = "Low" := by
      cases c <;> norm_num +decide [statusOf, mkCell]
    rw [hlow]
    decide
  · intro r v
    exact ⟨rfl, rfl⟩

/-- C2 (code evaluation at the failing input): with a single generated LFP
cell (current 0.0), merely rendering Tab 2 with 5.0 typed into the cell
input — without pressing Update All Currents — already changes the registry:
the shallow dict copy of line 141 aliases the per-cell dicts, so the staged
edit mutates the stored record in place. -/
theorem unconfirmed_edit_mutates_registry :
    registryView (tab2Render (fun _ => 5) sampleState) =
      [("cell_1_lfp", stagedRecord (mkCell Chem.lfp 30) 5)] ∧
    registryView sampleState = [("cell_1_lfp", mkCell Chem.lfp 30)] ∧
    ((registryView (tab2Render (fun _ => 5) sampleState)).map
      fun p => p.2.current) = [5] ∧
    ((registryView sampleState).map fun p => p.2.current) = [0] ∧
    registryView (tab2Render (fun _ => 5) sampleState) ≠
      registryView sampleState := by
  have h5 : ((registryView (tab2Render (fun _ => 5) sampleState)).map
      fun p => p.2.current) = [5] := rfl
  have h0 : ((registryView sampleState).map fun p => p.2.current) = [0] := by
    show [(mkCell Chem.lfp 30).current] = [0]
    norm_num [mkCell]
  refine ⟨rfl, rfl, h5, h0, ?_⟩
  intro hEq
  have := congrArg (List.map fun p => p.2.current) hEq
  rw [h5, h0] at this
  simp at this

/-- C3: generating from any configuration of N chemistries, 1 ≤ N ≤ 16,
yields a registry of exactly N entries whose ids are, in order, the 1-based
index paired with the lowercase chemistry through mkId, and these ids are
pairwise distinct. -/
theorem generate_registry_ids (ct : List Chem) (temps : ℕ → ℚ)
    (s : SessionState) (h1 : 1 ≤ ct.length) (h16 : ct.length ≤ 16) :
    (registryView (generateHandler ct temps s)).length = ct.length ∧
    (registryView (generateHandler ct temps s)).map Prod.fst =
      ct.enum.map (fun p => mkId (p.1 + 1) p.2) ∧
    ((registryView (generateHandler ct temps s)).map Prod.fst).Nodup := by
  rw [registryView_generateHandler]
  exact ⟨length_generateCells ct temps, keys_generateCells ct temps,
    keys_generateCells_nodup ct temps h16⟩

/-- Witness for C3 at the concrete two-cell configuration. -/
theorem generate_registry_ids_witness :
    (1 ≤ ([Chem.lfp, Chem.nmc] : List Chem).length ∧
      ([Chem.lfp, Chem.nmc] : List Chem).length ≤ 16) ∧
    ((registryView sampleState2).length = 2 ∧
      (registryView sampleState2).map Prod.fst = ["cell_1_lfp", "cell_2_nmc"] ∧
      ((registryView sampleState2).map Prod.fst).Nodup) := by
  refine ⟨⟨by norm_num, by norm_num⟩, ?_⟩
  unfold sampleState2
  have h := generate_registry_ids [Chem.lfp, Chem.nmc] (fun _ => 30)
    initialState (by norm_num) (by norm_num)
  exact ⟨h.1, by rw [h.2.1]; decide, h.2.2⟩

/-- C4: in every reachable session state, every registry record satisfies
capacity = round(voltage × current, 2); moreover round(3.2 × 2.0, 2) = 6.4,
and a freshly generated cell has current 0.0 and capacity 0.0. -/
theorem capacity_always_derived :
    (∀ s : SessionState, Reachable s →
      ∀ p ∈ registryView s,
        p.2.capacity = roundTo 2 (p.2.voltage * p.2.current)) ∧
    roundTo 2 ((3.2 : ℚ) * 2.0) = 6.4 ∧
    (∀ (c : Chem) (t : ℚ),
      (mkCell c t).current = 0 ∧ (mkCell c t).capacity = 0) := by
  refine ⟨?_, by norm_num [roundTo, pyRound], ?_⟩
  · intro s hs p hp
    exact registryView_capacityInv (reachable_heapInv hs) p hp
  · intro c t
    cases c <;> constructor <;> norm_num +decide [mkCell, roundTo, pyRound]

/-- Witness for C4 at a generated one-cell state. -/
theorem capacity_always_derived_witness :
    (mkCell Chem.lfp 30).capacity =
      roundTo 2 ((mkCell Chem.lfp 30).voltage * (mkCell Chem.lfp 30).current) := by
  refine capacity_always_derived.1 sampleState
    (Reachable.generate [Chem.lfp] (fun _ => 30) Reachable.init)
    ("cell_1_lfp", mkCell Chem.lfp 30) ?_
  show ("cell_1_lfp", mkCell Chem.lfp 30) ∈ [("cell_1_lfp", mkCell Chem.lfp 30)]
  exact List.mem_singleton.2 rfl

/-- C5: every generated temperature lies in [25, 40] and is an exact multiple
of one tenth, and neither a Tab 2 render nor a confirmed current update
changes any temperature in the registry. -/
theorem generated_temperature_bounds :
    (∀ (ct : List Chem) (temps : ℕ → ℚ) (s : SessionState),
      (∀ i, 25 ≤ temps i ∧ temps i ≤ 40) →
      ∀ p ∈ registryView (generateHandler ct temps s),
        25 ≤ p.2.temp ∧ p.2.temp ≤ 40 ∧ ∃ z : ℤ, p.2.temp = (z : ℚ) / 10) ∧
    (∀ (inputs : String → ℚ) (s : SessionState),
      (registryView (tab2Render inputs s)).map (fun p => (p.1, p.2.temp)) =
        (registryView s).map (fun p => (p.1, p.2.temp)) ∧
      (registryView (updateAllCurrents inputs s)).map
          (fun p => (p.1, p.2.temp)) =
        (registryView s).map (fun p => (p.1, p.2.temp))) := by
  constructor
  · intro ct temps s htemps p hp
    rw [registryView_generateHandler] at hp
    simp only [generateCells, List.mem_map] at hp
    obtain ⟨q, hq, rfl⟩ := hp
    have hT : (mkCell q.2 (temps q.1)).temp = roundTo 1 (temps q.1) := rfl
    have h25 : ((25 : ℤ) : ℚ) ≤ temps q.1 := by
      exact_mod_cast (htemps q.1).1
    have h40 : temps q.1 ≤ ((40 : ℤ) : ℚ) := by
      exact_mod_cast (htemps q.1).2
    obtain ⟨hl, hr⟩ := roundTo_one_mem_Icc h25 h40
    push_cast at hl hr
    refine ⟨by rw [hT]; exact hl, by rw [hT]; exact hr,
      ⟨pyRound (temps q.1 * 10 ^ 1), ?_⟩⟩
    rw [hT]
    norm_num [roundTo]
  · intro inputs s
    refine ⟨registryView_temp_tab2Render inputs s, ?_⟩
    rw [updateAllCurrents_eq_tab2Render]
    exact registryView_temp_tab2Render inputs s

/-- Witness for C5 at a generated one-cell state with sampled raw
temperature 30. -/
theorem generated_temperature_bounds_witness :
    25 ≤ (mkCell Chem.lfp 30).temp ∧ (mkCell Chem.lfp 30).temp ≤ 40 ∧
    ∃ z : ℤ, (mkCell Chem.lfp 30).temp = (z : ℚ) / 10 := by
  refine generated_temperature_bounds.1 [Chem.lfp] (fun _ => 30) initialState
    (fun i => by norm_num) ("cell_1_lfp", mkCell Chem.lfp 30) ?_
  show ("cell_1_lfp", mkCell Chem.lfp 30) ∈ [("cell_1_lfp", mkCell Chem.lfp 30)]
  exact List.mem_singleton.2 rfl

/-- C6: pressing Generate fully replaces the registry: the resulting view is
exactly the freshly built cell list, independent of whatever the registry
held before, so no old entry persists unless the new configuration rebuilds
it. -/
theorem regenerate_replaces_registry :
    ∀ (ct : List Chem) (temps : ℕ → ℚ) (s s' : SessionState),
      registryView (generateHandler ct temps s) = generateCells ct temps ∧
      registryView (generateHandler ct temps s) =
        registryView (generateHandler ct temps s') := by
  intro ct temps s s'
  exact ⟨registryView_generateHandler ct temps s,
    (registryView_generateHandler ct temps s).trans
      (registryView_generateHandler ct temps s').symm⟩

/-- C7: confirming an update whose inputs change only cell X to V changes
only the record of X (current set to V, capacity recomputed) and leaves every
other record and the id map unchanged; confirming with every input equal to
its stored current leaves the registry view identical. -/
theorem update_changes_only_target :
    (∀ s : SessionState, HeapInv s → (s.cells_data.map Prod.snd).Nodup →
      (∀ e ∈ s.cells_data, e.2 < s.heap.length) →
      ∀ (X : String) (V : ℚ), 0 ≤ V → V ≤ 100 →
      ∀ inputs : String → ℚ, inputs X = V →
      (∀ e ∈ s.cells_data, e.1 ≠ X →
        inputs e.1 = (s.heap.getD e.2 dictMissing).current) →
      (updateAllCurrents inputs s).cells_data = s.cells_data ∧
      registryView (updateAllCurrents inputs s) =
        (registryView s).map
          (fun p => if p.1 = X then (p.1, stagedRecord p.2 V) else p)) ∧
    (∀ s : SessionState, HeapInv s → (s.cells_data.map Prod.snd).Nodup →
      (∀ e ∈ s.cells_data, e.2 < s.heap.length) →
      ∀ inputs : String → ℚ,
      (∀ e ∈ s.cells_data,
        inputs e.1 = (s.heap.getD e.2 dictMissing).current) →
      registryView (updateAllCurrents inputs s) = registryView s) := by
  constructor
  · intro s hinv hnd hbound X V hV0 hV100 inputs hX hothers
    refine ⟨rfl, ?_⟩
    rw [updateAllCurrents_eq_tab2Render, registryView_tab2Render_getD]
    show _ = (s.cells_data.map
      (fun e => (e.1, s.heap.getD e.2 dictMissing))).map _
    rw [List.map_map]
    refine List.map_congr_left ?_
    intro e he
    simp only [Function.comp_apply]
    rw [foldl_stageEdit_touched inputs s.cells_data hnd e he s.heap
      (hbound e he)]
    by_cases hx : e.1 = X
    · rw [if_pos hx]
      have hiv : inputs e.1 = V := by rw [hx]; exact hX
      rw [hiv]
    · rw [if_neg hx, hothers e he hx,
        stagedRecord_self _ (getD_capacityInv hinv e.2)]
  · intro s hinv hnd hbound inputs hstored
    rw [updateAllCurrents_eq_tab2Render, registryView_tab2Render_getD]
    show _ = s.cells_data.map (fun e => (e.1, s.heap.getD e.2 dictMissing))
    refine List.map_congr_left ?_
    intro e he
    rw [foldl_stageEdit_touched inputs s.cells_data hnd e he s.heap
      (hbound e he), hstored e he,
      stagedRecord_self _ (getD_capacityInv hinv e.2)]

/-- Witness for C7: in a two-cell registry, updating only cell_1_lfp to
current 2 rewrites exactly that entry. -/
theorem update_changes_only_target_witness :
    (updateAllCurrents (fun k => if k = "cell_1_lfp" then 2 else 0)
        sampleState2).cells_data = sampleState2.cells_data ∧
    registryView (updateAllCurrents
        (fun k => if k = "cell_1_lfp" then 2 else 0) sampleState2) =
      (registryView sampleState2).map
        (fun p => if p.1 = "cell_1_lfp" then (p.1, stagedRecord p.2 2) else p) := by
  refine update_changes_only_target.1 sampleState2 ?_ (by decide) (by decide)
    "cell_1_lfp" 2 (by norm_num) (by norm_num) _ (by norm_num) ?_
  · exact heapInv_generateHandler _ _ _
      (fun r hr => absurd hr (List.not_mem_nil r))
  · intro e he hne
    have hc : sampleState2.cells_data =
        [("cell_1_lfp", 0), ("cell_2_nmc", 1)] := rfl
    rw [hc] at he
    simp only [List.mem_cons, List.mem_singleton, List.not_mem_nil,
      or_false] at he
    rcases he with rfl | rfl
    · exact absurd rfl hne
    · have hh : sampleState2.heap.getD 1 dictMissing =
          mkCell Chem.nmc 30 := rfl
      rw [hh]
      norm_num +decide [mkCell]

/-- C8: the CSV export header is exactly the fixed column list joined by
commas, the filename and MIME type are the fixed constants, and the detailed
table has one row per registry entry, in registry order, whose values are
the fields of the in-memory record at export time. -/
theorem csv_export_structure :
    csvHeaderRow =
      "Cell ID,Type,Voltage (V),Min Voltage (V),Max Voltage (V),Current (A),Temperature (°C),Capacity (Ah)" ∧
    downloadFilename = "battery_cell_data.csv" ∧
    downloadMime = "text/csv" ∧
    (∀ s : SessionState,
      (dfDetailed s).length = (registryView s).length ∧
      dfDetailed s = (registryView s).map (fun p =>
        (p.1, p.2.type, p.2.voltage, p.2.min_voltage, p.2.max_voltage,
         p.2.current, p.2.temp, p.2.capacity))) := by
  refine ⟨by decide, rfl, rfl, ?_⟩
  intro s
  exact ⟨by simp [dfDetailed], rfl⟩

/-- C9: for both chemistries the generated record satisfies
min_voltage < voltage < max_voltage (LFP 2.8 < 3.2 < 3.6, NMC
3.2 < 3.6 < 4.0), so the classification denominator is strictly positive and
never zero. -/
theorem chemistry_voltage_ordering :
    ∀ (c : Chem) (t : ℚ),
      (mkCell c t).min_voltage < (mkCell c t).voltage ∧
      (mkCell c t).voltage < (mkCell c t).max_voltage ∧
      0 < (mkCell c t).max_voltage - (mkCell c t).min_voltage ∧
      (mkCell c t).max_voltage - (mkCell c t).min_voltage ≠ 0 ∧
      ((mkCell Chem.lfp t).min_voltage = 2.8 ∧
        (mkCell Chem.lfp t).voltage = 3.2 ∧
        (mkCell Chem.lfp t).max_voltage = 3.6) ∧
      ((mkCell Chem.nmc t).min_voltage = 3.2 ∧
        (mkCell Chem.nmc t).voltage = 3.6 ∧
        (mkCell Chem.nmc t).max_voltage = 4.0) := by
  intro c t
  cases c <;> refine ⟨?_, ?_, ?_, ?_, ⟨?_, ?_, ?_⟩, ⟨?_, ?_, ?_⟩⟩ <;>
    norm_num +decide [mkCell]

/-- C10: whenever the Overview tab renders (registry non-empty), the column
count min(4, number of cells) is at least one and the access at index
idx % numColumns is always in bounds. -/
theorem overview_columns_safe :
    ∀ s : SessionState, s.cells_data ≠ [] →
      1 ≤ numColumns s ∧ numColumns s ≠ 0 ∧
      ∀ idx : ℕ, idx % numColumns s < numColumns s := by
  intro s h
  have hpos : 0 < s.cells_data.length := List.length_pos.2 h
  have h1 : 1 ≤ numColumns s := by
    unfold numColumns
    omega
  exact ⟨h1, by omega, fun idx => Nat.mod_lt idx (by omega)⟩

/-- Witness for C10 at a generated one-cell state. -/
theorem overview_columns_safe_witness :
    sampleState.cells_data ≠ [] ∧
    (1 ≤ numColumns sampleState ∧ numColumns sampleState ≠ 0 ∧
      ∀ idx : ℕ, idx % numColumns sampleState < numColumns sampleState) :=
  ⟨by decide, overview_columns_safe sampleState (by decide)⟩

end BatteryApp
